import Mathlib

/-!
# Kage-Scan — verification of the page pipeline and layout engine

Shallow embedding of the algorithmic core of the Kage-Scan backend
(`backend/app/services/detection.py`, `inpainting.py`, `ocr.py`,
`translation.py`, `typesetting.py` and `backend/app/routers/pipeline.py`,
`export.py`), together with theorems settling the frozen claims about it.

Conventions:
* Python `int` is modelled as `ℤ` (or `ℕ` where the source only ever sees
  non-negative values); `float` quantities produced by exact integer data
  (IOU ratios, text measurements) are modelled as `ℚ`.
* External collaborators (the detector model, OCR backends, the LLM,
  Pillow text measurement and glyph rasterisation, `textwrap.wrap`) are
  passed in as explicit function/`Except` parameters; the code under
  verification is translated from the source.
-/

/-! ## Detection geometry — `detection.py` -/

/-- A bounding box `{"x", "y", "w", "h"}` as produced by `TextDetector`
(Python ints, top-left origin). -/
structure DBox where
  x : ℤ
  y : ℤ
  w : ℤ
  h : ℤ
deriving DecidableEq, Repr

/-- `box["w"] * box["h"]`, the sort key of `_remove_overlapping`. -/
def boxArea (b : DBox) : ℤ := b.w * b.h

/-- The clipped intersection width/height product computed inside
`_remove_overlapping`: `(x2 - x1) * (y2 - y1)` for
`x1 = max(x, x')`, `x2 = min(x + w, x' + w')` (and similarly for `y`). -/
def interArea (a b : DBox) : ℤ :=
  (min (a.x + a.w) (b.x + b.w) - max a.x b.x) *
    (min (a.y + a.h) (b.y + b.h) - max a.y b.y)

/-- The `union = box_area + kept_area - intersection` of `_remove_overlapping`. -/
def unionArea (a b : DBox) : ℤ := boxArea a + boxArea b - interArea a b

/-- The guard of `_remove_overlapping` at threshold `0.5`: the boxes overlap
(`x1 < x2 and y1 < y2`) and `intersection / union > 0.5` (the code sets the
ratio to `0` when `union ≤ 0`, so the positive-union conjunct is part of the
condition).  `intersection / union > 1/2 ↔ union < 2 * intersection` for
`union > 0`, which keeps the arithmetic over `ℤ`. -/
def IouGtHalf (a b : DBox) : Prop :=
  max a.x b.x < min (a.x + a.w) (b.x + b.w) ∧
  max a.y b.y < min (a.y + a.h) (b.y + b.h) ∧
  0 < unionArea a b ∧ unionArea a b < 2 * interArea a b

instance (a b : DBox) : Decidable (IouGtHalf a b) := by
  unfold IouGtHalf; infer_instance

/-- `sorted(bboxes, key=lambda b: b["w"] * b["h"], reverse=True)` — Python's
sort is stable and `reverse=True` keeps ties in input order, which is
exactly insertion sort for the reflexive total relation `area b ≤ area a`. -/
def byAreaDesc (a b : DBox) : Prop := boxArea b ≤ boxArea a

instance : DecidableRel byAreaDesc := fun a b => by
  unfold byAreaDesc; infer_instance

/-- One iteration of the greedy loop of `_remove_overlapping`: keep the
candidate only if its IOU against every already-kept box is `≤ 0.5`
(`keep.append(box)` otherwise). -/
def keepStep (keep : List DBox) (box : DBox) : List DBox :=
  if keep.any fun kept => decide (IouGtHalf box kept) then keep else keep ++ [box]

/-- `TextDetector._remove_overlapping` with the default threshold `0.5`. -/
def removeOverlapping (bboxes : List DBox) : List DBox :=
  (List.insertionSort byAreaDesc bboxes).foldl keepStep []

/-- The key tuple of `bboxes.sort(key=lambda b: (-b["x"], b["y"]))` in
`_detect_fallback`, compared lexicographically. -/
def fallbackLe (a b : DBox) : Prop := -a.x < -b.x ∨ (-a.x = -b.x ∧ a.y ≤ b.y)

instance : DecidableRel fallbackLe := fun a b => by
  unfold fallbackLe; infer_instance

instance : IsTotal DBox fallbackLe := ⟨by intro a b; unfold fallbackLe; omega⟩

instance : IsTrans DBox fallbackLe := ⟨by intro a b c; unfold fallbackLe; omega⟩

/-- The reading-order sort of `_detect_fallback`
(`bboxes.sort(key=lambda b: (-b["x"], b["y"]))`); Python's stable sort on a
total key coincides with insertion sort on the key's `≤`. -/
def fallbackSort (bboxes : List DBox) : List DBox :=
  List.insertionSort fallbackLe bboxes

/-- Modelled from the spec: the ordering C4 describes — bucket each region
into a coarse column by dividing `x` by a fixed pixel width `colW`, sort by
descending column index, then by ascending `y` within a column.  (No such
bucketing exists in the source; this definition follows the claim's words so
that it can be compared with `fallbackSort`.) -/
def bucketLe (colW : ℕ) (a b : DBox) : Prop :=
  b.x.toNat / colW < a.x.toNat / colW ∨
    (a.x.toNat / colW = b.x.toNat / colW ∧ a.y ≤ b.y)

instance (colW : ℕ) : DecidableRel (bucketLe colW) := fun a b => by
  unfold bucketLe; infer_instance

/-- Modelled from the spec: bucketed reading-order sort at column width `colW`. -/
def bucketedSort (colW : ℕ) (bboxes : List DBox) : List DBox :=
  List.insertionSort (bucketLe colW) bboxes

example : removeOverlapping [] = [] := rfl
example : removeOverlapping [⟨0, 0, 100, 10⟩] = [⟨0, 0, 100, 10⟩] := by decide
example :
    removeOverlapping [⟨0, 0, 100, 10⟩, ⟨30, 0, 90, 10⟩, ⟨55, 0, 80, 10⟩] =
      [⟨0, 0, 100, 10⟩, ⟨55, 0, 80, 10⟩] := by decide
example : IouGtHalf ⟨30, 0, 90, 10⟩ ⟨55, 0, 80, 10⟩ := by decide
example : fallbackSort [⟨0, 0, 60, 60⟩, ⟨1, 1, 60, 60⟩] =
    [⟨1, 1, 60, 60⟩, ⟨0, 0, 60, 60⟩] := by decide
example : bucketedSort 2 [⟨0, 0, 60, 60⟩, ⟨1, 1, 60, 60⟩] =
    [⟨0, 0, 60, 60⟩, ⟨1, 1, 60, 60⟩] := by decide

/-! ## Batch translation — `translation.py`

`Translator.translate_batch` (len > 2 path) scans the raw LLM response with
`re.search(rf"\[I\]\s*(.+)", raw)` for each 1-based index `I` and strips the
captured group; a missing index falls back to `"[ERRO] <original>"`.
The regex machinery below models Python `re` semantics for this pattern:
leftmost match, greedy `\s*` with backtracking (it may cross newlines), and
`.` matching anything but `'\n'`.  `\s` and `str.strip()` are modelled over
the ASCII whitespace characters (the Unicode extras never occur here). -/

/-- Python `\s` (ASCII part). -/
def isPyWs (c : Char) : Bool :=
  c = ' ' || c = '\t' || c = '\n' || c = '\r' || c = '\x0b' || c = '\x0c'

/-- Python `str.strip()` on a character list. -/
def pyStripChars (l : List Char) : List Char :=
  ((l.dropWhile isPyWs).reverse.dropWhile isPyWs).reverse

/-- Python `str.strip()`. -/
def pyStrip (s : String) : String := String.mk (pyStripChars s.data)

/-- Matching `\s*(.+)` against `rest` when `\s*` takes exactly `k`
characters: succeeds iff the character at `k` exists and is not a newline,
capturing greedily to the end of that line.  Backtracks `k` downwards, so
`tryCapture rest k` is the greedy behaviour of `\s*` starting from budget
`k`. -/
def tryCapture (rest : List Char) : ℕ → Option (List Char)
  | 0 =>
    match rest.head? with
    | some c => if c = '\n' then none else some (rest.takeWhile fun d => d ≠ '\n')
    | none => none
  | k + 1 =>
    match rest.get? (k + 1) with
    | some c =>
      if c = '\n' then tryCapture rest k
      else some ((rest.drop (k + 1)).takeWhile fun d => d ≠ '\n')
    | none => tryCapture rest k

/-- Match `\s*(.+)` at the start of `rest` (greedy `\s*`, then at least one
non-newline character, captured to end of line). -/
def captureAfterTag (rest : List Char) : Option (List Char) :=
  tryCapture rest (rest.takeWhile isPyWs).length

/-- `re.search` for the pattern `lit` ++ `\s*(.+)`: scan left to right for a
position where the literal tag matches and the rest of the pattern succeeds;
return the captured group. -/
def searchTag (lit : List Char) : List Char → Option (List Char)
  | [] => if lit = [] then captureAfterTag [] else none
  | c :: cs =>
    if lit.isPrefixOf (c :: cs) then
      match captureAfterTag ((c :: cs).drop lit.length) with
      | some g => some g
      | none => searchTag lit cs
    else searchTag lit cs

/-- `re.search(rf"\[I\]\s*(.+)", raw)` followed by `.group(1).strip()`:
the first match of the literal tag `[I]`, then optional whitespace, then the
(stripped) rest of the line; `none` when the response contains no such
match. -/
def regexFindTag (idx : ℕ) (raw : String) : Option String :=
  (searchTag ("[" ++ toString idx ++ "]").data raw.data).map fun g =>
    String.mk (pyStripChars g)

/-- The per-index scan of `translate_batch`: entry `i` is the stripped first
match for tag `[i+1]`, or the sentinel `"[ERRO] <original>"` when the
response contains no such tag. -/
def scanTranslations (texts : List String) (raw : String) : List String :=
  texts.enum.map fun p =>
    match regexFindTag (p.1 + 1) raw with
    | some s => s
    | none => "[ERRO] " ++ p.2

/-- `Translator.translate_batch`.  External effects are explicit: `single`
is the per-text result of `translate_text` (used for batches of size ≤ 2),
and `rawResult` is the outcome of the combined `_call_llm` request (an
exception there is caught and every text maps to its sentinel). -/
def translateBatch (texts : List String) (single : String → String)
    (rawResult : Except Unit String) : List String :=
  if texts.length ≤ 2 then texts.map single
  else
    match rawResult with
    | .ok raw => scanTranslations texts raw
    | .error _ => texts.map fun t => "[ERRO] " ++ t

example :
    translateBatch ["hello", "world", "foo"] id
      (.ok "[1] olá\n[3] foo-traduzido") =
    ["olá", "[ERRO] world", "foo-traduzido"] := by decide

/-! ## OCR — `ocr.py` -/

/-- The placeholder `f"[テキスト {bbox['x']},{bbox['y']}]"` returned both by
the placeholder backend and by the catch-all handler of
`OcrEngine.extract_text` ("Return placeholder so block still gets created"). -/
def ocrPlaceholder (b : DBox) : String :=
  "[テキスト " ++ toString b.x ++ "," ++ toString b.y ++ "]"

/-- `OcrEngine.extract_text`: the selected backend's (already stripped)
result on success; on any exception inside the `try` block the placeholder
string for the region — never a raised exception. -/
def extractText (b : DBox) (backend : Except Unit String) : String :=
  match backend with
  | .ok t => t
  | .error _ => ocrPlaceholder b

/-! ## Page pipeline — `pipeline.py` -/

/-- `Page.status` values. -/
inductive PStatus where
  | pending
  | processing
  | ocr_done
  | translated
  | done
  | error
deriving DecidableEq, Repr

/-- The forward status chain named by the spec. -/
def statusChain : List PStatus :=
  [.pending, .processing, .ocr_done, .translated, .done]

/-- Position of a status in the forward chain. -/
def statusRank : PStatus → ℕ
  | .pending => 0
  | .processing => 1
  | .ocr_done => 2
  | .translated => 3
  | .done => 4
  | .error => 5

/-- A persisted `TextBlock` row as created by `_process_page` (step D). -/
structure PTextBlock where
  box : DBox
  text_original : String
  text_translated : String
deriving DecidableEq, Repr

/-- The observable outcome of `_process_page` for one page: the ordered
sequence of `page.status` writes, the `TextBlock` rows added, and the list
of original texts handed to `translator.translate_batch`. -/
structure PageRun where
  writes : List PStatus
  blocks : List PTextBlock
  sentTexts : List String
deriving DecidableEq, Repr

/-- Step B of `_process_page`: OCR each region and keep only the
`(bbox, text)` pairs whose text is non-empty (`if text:`). -/
def pageOcrResults (ocrOf : DBox → String) (bboxes : List DBox) :
    List (DBox × String) :=
  bboxes.filterMap fun b =>
    if ocrOf b = "" then none else some (b, ocrOf b)

/-- `[f"[ERRO] {t}" for t in original_texts]`. -/
def sentinelAll (ts : List String) : List String :=
  ts.map fun t => "[ERRO] " ++ t

/-- Step C of `_process_page`: the translation result, with an exception
from `translate_batch` caught and replaced by the sentinel list. -/
def pageTranslatedTexts (translateOf : List String → Except Unit (List String))
    (originals : List String) : List String :=
  match translateOf originals with
  | .ok ts => ts
  | .error _ => sentinelAll originals

/-- Step D of `_process_page`: one `TextBlock` per
`zip(ocr_results, translated_texts)` pair. -/
def pageBlocks (ocrResults : List (DBox × String)) (translatedTexts : List String) :
    List PTextBlock :=
  (ocrResults.zip translatedTexts).map fun pr =>
    { box := pr.1.1, text_original := pr.1.2, text_translated := pr.2 }

/-- The outcome of a page that produced no surviving regions:
`page.status` goes `processing` then `done`, nothing persisted. -/
def emptyPageRun : PageRun :=
  { writes := [.processing, .done], blocks := [], sentTexts := [] }

/-- `_process_page`, with the external steps explicit:
`detect` is the outcome of `detector.detect` (an exception there is caught
and treated as zero regions), `ocrOf` is `ocr_engine.extract_text` per
region (it never raises, see `extractText`), and `translateOf` is the
outcome of `translator.translate_batch` (an exception there is caught and
every text becomes its `"[ERRO] <text>"` sentinel). -/
def processPage (detect : Except Unit (List DBox)) (ocrOf : DBox → String)
    (translateOf : List String → Except Unit (List String)) : PageRun :=
  let bboxes := match detect with | .ok bs => bs | .error _ => []
  if bboxes = [] then emptyPageRun
  else if pageOcrResults ocrOf bboxes = [] then emptyPageRun
  else
    { writes := [.processing, .ocr_done, .translated],
      blocks := pageBlocks (pageOcrResults ocrOf bboxes)
        (pageTranslatedTexts translateOf ((pageOcrResults ocrOf bboxes).map (·.2))),
      sentTexts := (pageOcrResults ocrOf bboxes).map (·.2) }

example :
    processPage (.ok [⟨3, 4, 5, 6⟩]) (fun b => extractText b (.error ()))
      (fun _ => .error ()) =
    { writes := [.processing, .ocr_done, .translated],
      blocks := [{ box := ⟨3, 4, 5, 6⟩, text_original := "[テキスト 3,4]",
                   text_translated := "[ERRO] [テキスト 3,4]" }],
      sentTexts := ["[テキスト 3,4]"] } := by decide

/-! ## Inpainting mask — `inpainting.py` -/

/-- A box handed to `Inpainter._create_mask` (pipeline boxes have
non-negative integer coordinates). -/
structure MBox where
  x : ℕ
  y : ℕ
  w : ℕ
  h : ℕ
deriving DecidableEq, Repr

/-- Pixel `(px, py)` of a `w × h` image is covered by
`cv2.rectangle(..., (x1, y1), (x2, y2), ..., thickness=-1)`: inside the
axis-aligned rectangle spanned by the two (order-normalised) corner points,
*inclusive* of both corners, and inside the image. -/
def FillHit (w h x1 y1 x2 y2 px py : ℕ) : Prop :=
  min x1 x2 ≤ px ∧ px ≤ max x1 x2 ∧ px < w ∧
  min y1 y2 ≤ py ∧ py ≤ max y1 y2 ∧ py < h

instance (w h x1 y1 x2 y2 px py : ℕ) :
    Decidable (FillHit w h x1 y1 x2 y2 px py) := by
  unfold FillHit; infer_instance

/-- `cv2.rectangle(mask, (x1, y1), (x2, y2), 255, thickness=-1)` on a
`w × h` single-channel image. -/
def fillRect (w h x1 y1 x2 y2 : ℕ) (mask : ℕ → ℕ → ℕ) : ℕ → ℕ → ℕ :=
  fun px py => if FillHit w h x1 y1 x2 y2 px py then 255 else mask px py

/-- `Inpainter._create_mask (img_shape=(h, w), bboxes, padding)`: a zero
mask with one filled rectangle per box, corners
`(max(0, x - padding), max(0, y - padding))` and
`(min(w, x + w_box + padding), min(h, y + h_box + padding))`
(`ℕ` subtraction is the `max(0, ·)` clamp). -/
def createMask (h w padding : ℕ) (bboxes : List MBox) : ℕ → ℕ → ℕ :=
  bboxes.foldl
    (fun mask b =>
      fillRect w h (b.x - padding) (b.y - padding)
        (min w (b.x + b.w + padding)) (min h (b.y + b.h + padding)) mask)
    fun _ _ => 0

/-- The erase region the claim describes, read literally: the box covers
pixel columns `[x, x + w)`, expanding by the padding on each side gives
`[x - padding, x + w + padding)`, clamped to the image. -/
def SpecPaddedErase (h w padding : ℕ) (bboxes : List MBox) (px py : ℕ) : Prop :=
  px < w ∧ py < h ∧ ∃ b ∈ bboxes,
    b.x - padding ≤ px ∧ px < b.x + b.w + padding ∧
    b.y - padding ≤ py ∧ py < b.y + b.h + padding

instance (h w padding bboxes px py) :
    Decidable (SpecPaddedErase h w padding bboxes px py) := by
  unfold SpecPaddedErase; infer_instance

example : createMask 100 100 5 [⟨0, 0, 20, 20⟩] 25 10 = 255 := by decide
example : ¬ SpecPaddedErase 100 100 5 [⟨0, 0, 20, 20⟩] 25 10 := by decide
example : createMask 100 100 5 [⟨0, 0, 20, 20⟩, ⟨10, 10, 20, 20⟩] 33 33 = 255 := by
  decide
example : createMask 100 100 5 [⟨0, 0, 20, 20⟩, ⟨10, 10, 20, 20⟩] 40 40 = 0 := by
  decide

/-! ## Typesetting — `typesetting.py`

External pieces are parameters: `tw text width` is `textwrap.wrap(text,
width)` (a pure library function of the text and the character budget), and
`m text` is `draw.textlength(text, font)` for the font loaded at a given
size — `_find_font(family, size)` is modelled as yielding a face whose
`.size` is the requested size, so a font is represented by its size and a
size-indexed measure `ℕ → String → ℚ`. -/

/-- Python `int(·)` on an exact rational (truncation toward zero). -/
def pyTrunc (q : ℚ) : ℤ := if 0 ≤ q then ⌊q⌋ else -⌊-q⌋

/-- `max(1, draw.textlength("あいうえ", font) / 4)` then
`max(1, int(max_width / avg_char_w))` — the initial characters-per-line
estimate of `_wrap_text`. -/
def charsPerLine (m : String → ℚ) (maxWidth : ℤ) : ℕ :=
  (max 1 (pyTrunc ((maxWidth : ℚ) / max 1 (m "あいうえ" / 4)))).toNat

/-- `max(draw.textlength(line, font) for line in lines)` (Python `max` over
a non-empty list). -/
def widestLine (m : String → ℚ) : List String → ℚ
  | [] => 0
  | l :: ls => ls.foldl (fun acc s => max acc (m s)) (m l)

/-- The `for attempt_width in range(chars_per_line, 0, -1)` loop of
`_wrap_text`: try budgets `n, n-1, …, 1`; an empty wrap breaks out
(`none`, reaching the fallback), a wrap whose widest measured line fits
returns those lines. -/
def wrapAttempts (tw : String → ℕ → List String) (m : String → ℚ)
    (text : String) (maxWidth : ℤ) : ℕ → Option (List String)
  | 0 => none
  | n + 1 =>
    let lines := tw text (n + 1)
    if lines = [] then none
    else if widestLine m lines ≤ (maxWidth : ℚ) then some lines
    else wrapAttempts tw m text maxWidth n

/-- `_wrap_text(text, font, max_width, draw)`: empty text wraps to `[]`;
otherwise descend the character budget and, if nothing fits, fall back to
`textwrap.wrap(text, width=1) or [text]`. -/
def wrapText (tw : String → ℕ → List String) (m : String → ℚ)
    (text : String) (maxWidth : ℤ) : List String :=
  if text = "" then []
  else
    match wrapAttempts tw m text maxWidth (charsPerLine m maxWidth) with
    | some lines => lines
    | none => if tw text 1 = [] then [text] else tw text 1

/-- The `for size in range(max_size, min_size - 1, -1)` countdown of
`_auto_font_size`; fuel `k + 1` examines size `10 + k`, so fuel `39` starts
at size `48` and fuel `1` ends at size `10`.  `best` carries
`(best_font, best_lines)`. -/
def autoLoop (tw : String → ℕ → List String) (m : ℕ → String → ℚ)
    (text : String) (boxW boxH : ℤ) : ℕ → ℕ × List String → ℕ × List String
  | 0, best => best
  | k + 1, best =>
    let size := 10 + k
    let lines := wrapText tw (m size) text (boxW - 8)
    if lines = [] then autoLoop tw m text boxW boxH k best
    else if ((size + 4) * lines.length : ℤ) ≤ boxH - 8 then (size, lines)
    else autoLoop tw m text boxW boxH k (size, lines)

/-- `_auto_font_size(text, box_width, box_height, font_family, draw)` with
the default bounds `min_size = 10`, `max_size = 48`; the initial best is
`(_find_font(family, 10), [text])`. -/
def autoFontSize (tw : String → ℕ → List String) (m : ℕ → String → ℚ)
    (text : String) (boxW boxH : ℤ) : ℕ × List String :=
  autoLoop tw m text boxW boxH 39 (10, [text])

/-- Size `s` "fits" in the sense of `_auto_font_size`: the total wrapped
height `len(lines) * (s + 4)` is at most the inner height `boxH - 8`. -/
def FitsAt (tw : String → ℕ → List String) (m : ℕ → String → ℚ)
    (text : String) (boxW boxH : ℤ) (s : ℕ) : Prop :=
  ((s + 4) * (wrapText tw (m s) text (boxW - 8)).length : ℤ) ≤ boxH - 8

/-! ### Rendering — `Typesetter._render_sync` -/

/-- A `text_blocks` entry as passed to `_render_sync` by the export router
(coordinates already through `int(...)`). -/
structure RBlock where
  text_translated : Option String
  box_x : ℤ
  box_y : ℤ
  box_width : ℤ
  box_height : ℤ
  font_size : ℕ
  font_family : String
  text_color : String
  text_alignment : String

/-- An image as a total pixel colouring (colours as strings, e.g.
`"#FFFFFF"`). -/
def Img : Type := ℤ × ℤ → String

/-- The external rendering context of `_render_sync`: `textwrap.wrap`, the
per-family size-indexed text measure, and the rasteriser behind
`draw.text((x_pos, y_pos), line, fill, font)` — `paint xPos yPos line size
color p` is `some c` when that call writes colour `c` at pixel `p` and
`none` when it leaves `p` alone. -/
structure RenderCtx where
  tw : String → ℕ → List String
  measure : String → ℕ → String → ℚ
  paint : ℚ → ℤ → String → ℕ → String → ℤ × ℤ → Option String

/-- The skip test `if not text or not text.strip(): continue` (a missing
`text_translated` reads as `""` via `block.get(..., "")`). -/
def SkipBlock (b : RBlock) : Prop :=
  b.text_translated.getD "" = "" ∨ pyStrip (b.text_translated.getD "") = ""

instance (b : RBlock) : Decidable (SkipBlock b) := by
  unfold SkipBlock; infer_instance

/-- The font size and wrapped lines `_render_sync` settles on for a block:
wrap at the block's own font size, and auto-shrink only when that overflows
the inner height. -/
def blockLayout (ctx : RenderCtx) (b : RBlock) : ℕ × List String :=
  let text := b.text_translated.getD ""
  let m := ctx.measure b.font_family
  let lines0 := wrapText ctx.tw (m b.font_size) text (b.box_width - 8)
  if (b.box_height - 8 : ℤ) < ((b.font_size + 4) * lines0.length : ℤ) then
    autoFontSize ctx.tw m text b.box_width b.box_height
  else (b.font_size, lines0)

/-- `draw.rectangle([x0, y0, x1, y1], fill)` (Pillow fills corner-inclusive;
nothing is drawn for an inverted rectangle). -/
def drawRect (x0 y0 x1 y1 : ℤ) (color : String) (img : Img) : Img :=
  fun p =>
    if x0 ≤ p.1 ∧ p.1 ≤ x1 ∧ y0 ≤ p.2 ∧ p.2 ≤ y1 then color else img p

/-- The horizontal position of one line per the block's alignment. -/
def lineXPos (ctx : RenderCtx) (b : RBlock) (size : ℕ) (line : String) : ℚ :=
  let lineW := ctx.measure b.font_family size line
  if b.text_alignment = "center" then
    (b.box_x : ℚ) + ((b.box_width : ℚ) - lineW) / 2
  else if b.text_alignment = "right" then
    (b.box_x : ℚ) + (b.box_width : ℚ) - lineW - 4
  else (b.box_x : ℚ) + 4

/-- One `draw.text` call through the abstract rasteriser. -/
def paintLine (ctx : RenderCtx) (b : RBlock) (size : ℕ) (yStart : ℤ)
    (i : ℕ) (line : String) (img : Img) : Img :=
  fun p =>
    match ctx.paint (lineXPos ctx b size line) (yStart + i * (size + 4))
        line size b.text_color p with
    | some c => c
    | none => img p

/-- The `for i, line in enumerate(lines)` drawing loop. -/
def paintLines (ctx : RenderCtx) (b : RBlock) (size : ℕ) (yStart : ℤ) :
    List (ℕ × String) → Img → Img
  | [], img => img
  | (i, line) :: rest, img =>
    paintLines ctx b size yStart rest (paintLine ctx b size yStart i line img)

/-- Rendering of one non-skipped block: white background rectangle
(`bg_padding = 2`), then each wrapped line; `y_start = by + max(0,
(bh - total_height) // 2)` with Python floor division. -/
def renderBlock (ctx : RenderCtx) (b : RBlock) (img : Img) : Img :=
  let layout := blockLayout ctx b
  let totalH : ℤ := (layout.1 + 4) * layout.2.length
  let yStart := b.box_y + max 0 ((b.box_height - totalH).fdiv 2)
  paintLines ctx b layout.1 yStart layout.2.enum
    (drawRect (b.box_x + 2) (b.box_y + 2) (b.box_x + b.box_width - 2)
      (b.box_y + b.box_height - 2) "#FFFFFF" img)

/-- `Typesetter._render_sync`'s block loop over the opened image. -/
def renderSync (ctx : RenderCtx) : List RBlock → Img → Img
  | [], img => img
  | b :: bs, img =>
    renderSync ctx bs (if SkipBlock b then img else renderBlock ctx b img)

/-- The set of pixels a rendered block can write to: its background
rectangle plus the footprint of each of its `draw.text` calls. -/
def BlockTouches (ctx : RenderCtx) (b : RBlock) (p : ℤ × ℤ) : Prop :=
  let layout := blockLayout ctx b
  let totalH : ℤ := (layout.1 + 4) * layout.2.length
  let yStart := b.box_y + max 0 ((b.box_height - totalH).fdiv 2)
  (b.box_x + 2 ≤ p.1 ∧ p.1 ≤ b.box_x + b.box_width - 2 ∧
     b.box_y + 2 ≤ p.2 ∧ p.2 ≤ b.box_y + b.box_height - 2) ∨
  ∃ il ∈ layout.2.enum,
    (ctx.paint (lineXPos ctx b layout.1 il.2)
      (yStart + il.1 * (layout.1 + 4)) il.2 layout.1 b.text_color p).isSome

instance (ctx b p) : Decidable (BlockTouches ctx b p) := by
  unfold BlockTouches; infer_instance

/-- Pixel `p` lies in block `b`'s box (`[x, x + w) × [y, y + h)`). -/
def InBlockBox (b : RBlock) (p : ℤ × ℤ) : Prop :=
  b.box_x ≤ p.1 ∧ p.1 < b.box_x + b.box_width ∧
  b.box_y ≤ p.2 ∧ p.2 < b.box_y + b.box_height

instance (b p) : Decidable (InBlockBox b p) := by
  unfold InBlockBox; infer_instance

/-- A trivial instantiation of `textwrap.wrap` used to exercise the layout
engine on concrete inputs: every text wraps to a single line. -/
def demoWrap : String → ℕ → List String := fun t _ => [t]

/-- A trivial text measure (every string has width 0). -/
def demoMeasure1 : String → ℚ := fun _ => 0

/-- A trivial size-indexed text measure. -/
def demoMeasure : ℕ → String → ℚ := fun _ _ => 0

/-- A concrete rendering context whose rasteriser touches no pixels. -/
def demoCtx : RenderCtx :=
  { tw := demoWrap, measure := fun _ _ _ => 0, paint := fun _ _ _ _ _ _ => none }

/-- A block with no translation, as skipped by `_render_sync`. -/
def demoSkippedBlock : RBlock :=
  { text_translated := none, box_x := 0, box_y := 0, box_width := 10,
    box_height := 10, font_size := 18, font_family := "Arial",
    text_color := "#000000", text_alignment := "center" }

/-! ## Export — `export.py` -/

/-- The page data `export_project` uses. -/
structure EPage where
  page_number : ℕ
  filename : String
deriving DecidableEq, Repr

/-- Python `f"{n:04d}"`: decimal digits zero-padded to width 4. -/
def pad4 (n : ℕ) : String :=
  let s := toString n
  if s.length < 4 then String.mk (List.replicate (4 - s.length) '0') ++ s else s

/-- The export file name `f"{page.page_number:04d}_{page.filename}"`. -/
def exportName (p : EPage) : String := pad4 p.page_number ++ "_" ++ p.filename

/-- Python string `<` (lexicographic on code points), for
`sorted(..., key=lambda f: f.name)`. -/
def pyCharsLe : List Char → List Char → Prop
  | [], _ => True
  | _ :: _, [] => False
  | c :: cs, d :: ds => c.val < d.val ∨ (c = d ∧ pyCharsLe cs ds)

instance : DecidableRel pyCharsLe := fun a b => by
  induction a generalizing b with
  | nil => exact isTrue trivial
  | cons c cs ih =>
    cases b with
    | nil => exact isFalse not_false
    | cons d ds => unfold pyCharsLe; exact @instDecidableOr _ _ _ (@instDecidableAnd _ _ _ (ih ds))

/-- `≤` on file names as Python's `sorted` compares them. -/
def pyNameLe (a b : String) : Prop := pyCharsLe a.data b.data

instance : DecidableRel pyNameLe := fun a b => by
  unfold pyNameLe; infer_instance

/-- `sorted(pages, key=lambda p: p.page_number)` (stable). -/
def byPageNumberLe (a b : EPage) : Prop := a.page_number ≤ b.page_number

instance : DecidableRel byPageNumberLe := fun a b => by
  unfold byPageNumberLe; infer_instance

/-- `export_project`, per-page rendering outcomes explicit.  Pages are
processed in ascending `page_number`; a page whose `_render_page` raises is
logged and skipped (`continue`), each success leaves one file named
`exportName` in the export directory; the directory listing is sorted by
name; zero rendered files raise HTTP 500, no pages raise HTTP 400, and
otherwise the archive holds exactly the rendered files in name order. -/
def exportProject (pages : List EPage) (render : EPage → Except Unit Unit) :
    Except String (List String) :=
  if pages = [] then .error "Project has no pages to export."
  else
    let sortedPages := List.insertionSort byPageNumberLe pages
    let renderedFiles := sortedPages.filterMap fun p =>
      match render p with
      | .ok _ => some (exportName p)
      | .error _ => none
    let renderedFiles := List.insertionSort pyNameLe renderedFiles
    if renderedFiles = [] then .error "Export produced no rendered images."
    else .ok renderedFiles

example :
    exportProject
      [⟨1, "a.png"⟩, ⟨2, "b.png"⟩, ⟨3, "c.png"⟩]
      (fun p => if p.page_number = 2 then .error () else .ok ()) =
    .ok ["0001_a.png", "0003_c.png"] := rfl

/-! ## Theorems -/

/-! ### C3 — overlap removal -/

theorem interArea_comm (a b : DBox) : interArea a b = interArea b a := by
  unfold interArea
  rw [max_comm a.x b.x, min_comm (a.x + a.w) (b.x + b.w),
    max_comm a.y b.y, min_comm (a.y + a.h) (b.y + b.h)]

theorem unionArea_comm (a b : DBox) : unionArea a b = unionArea b a := by
  unfold unionArea
  rw [interArea_comm, add_comm (boxArea a) (boxArea b)]

theorem iouGtHalf_comm {a b : DBox} (h : IouGtHalf a b) : IouGtHalf b a := by
  unfold IouGtHalf at h ⊢
  rw [max_comm b.x a.x, min_comm (b.x + b.w) (a.x + a.w),
    max_comm b.y a.y, min_comm (b.y + b.h) (a.y + a.h),
    unionArea_comm b a, interArea_comm b a]
  exact h

theorem keepStep_pairwise {keep : List DBox} {box : DBox}
    (h : keep.Pairwise fun a b => ¬ IouGtHalf a b) :
    (keepStep keep box).Pairwise fun a b => ¬ IouGtHalf a b := by
  unfold keepStep
  split
  · exact h
  · next hany =>
    rw [List.pairwise_append]
    refine ⟨h, List.pairwise_singleton _ _, ?_⟩
    intro a ha b hb
    rw [List.mem_singleton] at hb
    subst hb
    rw [List.any_eq_true] at hany
    push_neg at hany
    intro hcontra
    exact absurd (by simpa using hany a ha) (by simp [iouGtHalf_comm hcontra])

theorem keepFold_pairwise :
    ∀ (l acc : List DBox), (acc.Pairwise fun a b => ¬ IouGtHalf a b) →
      (l.foldl keepStep acc).Pairwise fun a b => ¬ IouGtHalf a b := by
  intro l
  induction l with
  | nil => intro acc h; exact h
  | cons b bs ih =>
    intro acc h
    exact ih (keepStep acc b) (keepStep_pairwise h)

/-- C3, amended.  The claim's guarantees that do hold of
`_remove_overlapping`: the output never contains two regions whose IOU
exceeds `0.5` (so whenever the larger region of an overlapping pair is
kept, the smaller is not), candidates are considered in descending area
order and kept only when their IOU against every already-kept region is at
most the threshold, the empty input yields an empty output, and a
single-region input is returned unchanged.  What the original claim adds —
that among *any* overlapping pair in the input the larger-area region is
the one retained — is false, see the counterexample. -/
theorem c3_remove_overlapping_amended :
    (∀ bboxes : List DBox,
      (removeOverlapping bboxes).Pairwise fun a b => ¬ IouGtHalf a b) ∧
    removeOverlapping [] = [] ∧
    ∀ b : DBox, removeOverlapping [b] = [b] := by
  refine ⟨?_, rfl, ?_⟩
  · intro bboxes
    exact keepFold_pairwise _ [] (List.Pairwise.nil)
  · intro b
    rfl

/-- C3, counterexample.  With candidates `A = (0,0,100,10)`,
`B = (30,0,90,10)`, `C = (55,0,80,10)`: `B` and `C` overlap with IOU
`650/1050 > 0.5` and `B` has the larger area, yet `_remove_overlapping`
keeps `C` and discards `B` (`B` was eliminated by the even larger kept box
`A`, whose IOU with `C` is below the threshold) — so "among any
overlapping pair the larger-area region is the one retained" fails. -/
theorem c3_counterexample :
    IouGtHalf ⟨30, 0, 90, 10⟩ ⟨55, 0, 80, 10⟩ ∧
    boxArea ⟨55, 0, 80, 10⟩ < boxArea ⟨30, 0, 90, 10⟩ ∧
    removeOverlapping [⟨0, 0, 100, 10⟩, ⟨30, 0, 90, 10⟩, ⟨55, 0, 80, 10⟩] =
      [⟨0, 0, 100, 10⟩, ⟨55, 0, 80, 10⟩] ∧
    (⟨55, 0, 80, 10⟩ : DBox) ∈
      removeOverlapping [⟨0, 0, 100, 10⟩, ⟨30, 0, 90, 10⟩, ⟨55, 0, 80, 10⟩] ∧
    (⟨30, 0, 90, 10⟩ : DBox) ∉
      removeOverlapping [⟨0, 0, 100, 10⟩, ⟨30, 0, 90, 10⟩, ⟨55, 0, 80, 10⟩] := by
  decide

/-! ### C4 — fallback reading order -/

/-- C4, amended.  After deduplication `_detect_fallback` orders the kept
regions with `bboxes.sort(key=lambda b: (-b["x"], b["y"]))`: a permutation
of the kept set sorted by *exact* descending `x`, tie-broken by ascending
`y` — equivalently, bucketing with a degenerate column width of one pixel.
The result is a pure function of the input coordinates, hence
deterministic.  The claimed *coarse* bucketing (a fixed pixel width of at
least two) does not match the code, see the counterexample. -/
theorem c4_fallback_order_amended :
    ∀ bboxes : List DBox,
      (fallbackSort (removeOverlapping bboxes)).Perm (removeOverlapping bboxes) ∧
      (fallbackSort (removeOverlapping bboxes)).Sorted fallbackLe := by
  intro bboxes
  exact ⟨List.perm_insertionSort _ _, List.sorted_insertionSort _ _⟩

/-- C4, counterexample.  No coarse column width reproduces the code's
order: for boxes at `x = 0, y = 0` and `x = 1, y = 1`, any bucketing with
column width ≥ 2 puts both in the same column and orders them by ascending
`y`, while the code's exact `-x` key puts the `x = 1` box first. -/
theorem c4_counterexample :
    ¬ ∃ colW : ℕ, 2 ≤ colW ∧
      ∀ bboxes : List DBox, bucketedSort colW bboxes = fallbackSort bboxes := by
  rintro ⟨colW, hW, hall⟩
  have h := hall [⟨0, 0, 60, 60⟩, ⟨1, 1, 60, 60⟩]
  have h10 : (1 : ℕ) / colW = 0 := Nat.div_eq_of_lt (by omega)
  have hb : bucketLe colW ⟨0, 0, 60, 60⟩ ⟨1, 1, 60, 60⟩ := by
    unfold bucketLe
    right
    refine ⟨?_, by norm_num⟩
    show (0 : ℤ).toNat / colW = (1 : ℤ).toNat / colW
    simp [h10]
  have hbs : bucketedSort colW [⟨0, 0, 60, 60⟩, ⟨1, 1, 60, 60⟩] =
      [⟨0, 0, 60, 60⟩, ⟨1, 1, 60, 60⟩] := by
    unfold bucketedSort
    simp only [List.insertionSort, List.orderedInsert]
    rw [if_pos hb]
  rw [hbs] at h
  have hfs : fallbackSort [⟨0, 0, 60, 60⟩, ⟨1, 1, 60, 60⟩] =
      [⟨1, 1, 60, 60⟩, ⟨0, 0, 60, 60⟩] := by decide
  rw [hfs] at h
  exact absurd h (by decide)

/-! ### C1 — page status never regresses -/

theorem processPage_writes (detect : Except Unit (List DBox))
    (ocrOf : DBox → String)
    (translateOf : List String → Except Unit (List String)) :
    (processPage detect ocrOf translateOf).writes =
        [.processing, .done] ∨
      (processPage detect ocrOf translateOf).writes =
        [.processing, .ocr_done, .translated] := by
  unfold processPage
  cases detect with
  | ok bs =>
    dsimp only
    split
    · left; rfl
    · split
      · left; rfl
      · right; rfl
  | error e => left; rfl

/-- C1.  Whatever the detector, OCR and translator outcomes, the sequence
of `page.status` values `_process_page` writes for one page is a sublist of
the forward chain `pending, processing, ocr_done, translated, done` and is
strictly increasing along that chain — no write moves a page backwards
(and since every prefix of such a sequence is again such a sequence, the
same holds if the page aborts mid-way). -/
theorem c1_page_status_forward (detect : Except Unit (List DBox))
    (ocrOf : DBox → String)
    (translateOf : List String → Except Unit (List String)) :
    (processPage detect ocrOf translateOf).writes.Sublist statusChain ∧
      List.Chain' (fun a b => statusRank a < statusRank b)
        (processPage detect ocrOf translateOf).writes := by
  rcases processPage_writes detect ocrOf translateOf with h | h <;>
    rw [h] <;>
    exact ⟨by decide, by simp [List.chain'_cons, statusRank]⟩

/-! ### C7 — OCR failure handling -/

theorem ocrPlaceholder_ne_empty (b : DBox) : ocrPlaceholder b ≠ "" := by
  unfold ocrPlaceholder
  intro h
  have hlen := congrArg String.length h
  simp only [String.length_append] at hlen
  have h6 : ("[テキスト " : String).length = 6 := rfl
  have h1 : ("," : String).length = 1 := rfl
  have h2 : ("]" : String).length = 1 := rfl
  have h0 : ("" : String).length = 0 := rfl
  rw [h6, h1, h2, h0] at hlen
  omega

/-- C7, counterexample.  A region whose OCR backend raises is *not*
recovered as empty text and dropped: `extract_text` catches the exception
and returns the non-empty placeholder `"[テキスト x,y]"` ("Return
placeholder so block still gets created"), so `_process_page` sends the
placeholder to translation and persists a `TextBlock` for the region. -/
theorem c7_counterexample :
    extractText ⟨3, 4, 5, 6⟩ (.error ()) ≠ "" ∧
    (processPage (.ok [⟨3, 4, 5, 6⟩])
        (fun b => extractText b (.error ())) (fun _ => .error ())).blocks =
      [{ box := ⟨3, 4, 5, 6⟩, text_original := "[テキスト 3,4]",
         text_translated := "[ERRO] [テキスト 3,4]" }] ∧
    (processPage (.ok [⟨3, 4, 5, 6⟩])
        (fun b => extractText b (.error ())) (fun _ => .error ())).sentTexts =
      ["[テキスト 3,4]"] := by
  refine ⟨by decide, by decide, by decide⟩

/-- C7, amended.  A failing OCR backend is recovered locally, but as the
non-empty placeholder `"[テキスト x,y]"`, not as empty text: the region is
*kept* — its placeholder is sent to translation and (whenever the
translator answers one text per input, or fails and is replaced by
sentinels) a `TextBlock` is persisted for the region.  Only regions whose
`extract_text` returns empty text are dropped silently. -/
theorem c7_ocr_failure_amended (bs : List DBox)
    (backend : DBox → Except Unit String)
    (translateOf : List String → Except Unit (List String)) (b : DBox)
    (hmem : b ∈ bs) (hfail : backend b = .error ())
    (hlen : ∀ ts rs, translateOf ts = .ok rs → rs.length = ts.length) :
    extractText b (backend b) = ocrPlaceholder b ∧
    extractText b (backend b) ≠ "" ∧
    ocrPlaceholder b ∈
      (processPage (.ok bs) (fun r => extractText r (backend r))
        translateOf).sentTexts ∧
    ∃ blk ∈ (processPage (.ok bs) (fun r => extractText r (backend r))
        translateOf).blocks,
      blk.box = b ∧ blk.text_original = ocrPlaceholder b := by
  have hx : extractText b (backend b) = ocrPlaceholder b := by
    rw [hfail]; rfl
  have hne := ocrPlaceholder_ne_empty b
  have hpair : (b, ocrPlaceholder b) ∈
      pageOcrResults (fun r => extractText r (backend r)) bs := by
    unfold pageOcrResults
    rw [List.mem_filterMap]
    refine ⟨b, hmem, ?_⟩
    show (if extractText b (backend b) = "" then (none : Option (DBox × String))
      else some (b, extractText b (backend b))) = some (b, ocrPlaceholder b)
    rw [hx, if_neg hne]
  have hocrne : pageOcrResults (fun r => extractText r (backend r)) bs ≠ [] :=
    List.ne_nil_of_mem hpair
  have hbsne : bs ≠ [] := List.ne_nil_of_mem hmem
  have hrun : processPage (.ok bs) (fun r => extractText r (backend r))
      translateOf =
      { writes := [.processing, .ocr_done, .translated],
        blocks := pageBlocks
          (pageOcrResults (fun r => extractText r (backend r)) bs)
          (pageTranslatedTexts translateOf
            ((pageOcrResults (fun r => extractText r (backend r)) bs).map (·.2))),
        sentTexts :=
          (pageOcrResults (fun r => extractText r (backend r)) bs).map (·.2) } := by
    unfold processPage
    rw [if_neg hbsne, if_neg hocrne]
  refine ⟨hx, hx ▸ hne, ?_, ?_⟩
  · rw [hrun]
    exact List.mem_map.mpr ⟨(b, ocrPlaceholder b), hpair, rfl⟩
  · rw [hrun]
    set ocrRes := pageOcrResults (fun r => extractText r (backend r)) bs with hres
    set trans := pageTranslatedTexts translateOf (ocrRes.map (·.2)) with htr
    have hlen2 : trans.length = ocrRes.length := by
      rw [htr]
      unfold pageTranslatedTexts
      cases hcall : translateOf (ocrRes.map (·.2)) with
      | ok ts => rw [hlen _ _ hcall, List.length_map]
      | error e => rw [sentinelAll, List.length_map, List.length_map]
    obtain ⟨i, hi, hget⟩ := List.getElem_of_mem hpair
    have hiz : i < (ocrRes.zip trans).length := by
      rw [List.length_zip, hlen2]
      omega
    refine ⟨{ box := b, text_original := ocrPlaceholder b,
              text_translated := trans.get ⟨i, by omega⟩ }, ?_, rfl, rfl⟩
    unfold pageBlocks
    rw [List.mem_map]
    refine ⟨((b, ocrPlaceholder b), trans.get ⟨i, by omega⟩), ?_, rfl⟩
    rw [List.mem_iff_getElem]
    exact ⟨i, hiz, by rw [List.getElem_zip, hget]; rfl⟩

theorem c7_witness :
    (⟨3, 4, 5, 6⟩ : DBox) ∈ [(⟨3, 4, 5, 6⟩ : DBox)] ∧
    (extractText ⟨3, 4, 5, 6⟩ (.error ()) = ocrPlaceholder ⟨3, 4, 5, 6⟩ ∧
     extractText ⟨3, 4, 5, 6⟩ (.error ()) ≠ "" ∧
     ocrPlaceholder ⟨3, 4, 5, 6⟩ ∈
       (processPage (.ok [⟨3, 4, 5, 6⟩]) (fun r => extractText r (.error ()))
         (fun ts => .ok ts)).sentTexts ∧
     ∃ blk ∈ (processPage (.ok [⟨3, 4, 5, 6⟩])
         (fun r => extractText r (.error ())) (fun ts => .ok ts)).blocks,
       blk.box = ⟨3, 4, 5, 6⟩ ∧ blk.text_original = ocrPlaceholder ⟨3, 4, 5, 6⟩) :=
  ⟨by decide,
    c7_ocr_failure_amended [⟨3, 4, 5, 6⟩] (fun _ => .error ()) (fun ts => .ok ts)
      ⟨3, 4, 5, 6⟩ (by decide) rfl (fun ts rs h => by cases h; rfl)⟩

/-! ### C2 — batch translation scan -/

/-- C2.  For more than two input texts and any raw LLM response,
`translate_batch` returns exactly one entry per input, in input order:
entry `i` is the first (stripped) match of `\[i+1\]\s*(.+)` in the
response when one exists, and the sentinel `"[ERRO] <original text i>"`
otherwise. -/
theorem c2_translate_batch (texts : List String) (single : String → String)
    (raw : String) (hgt : 2 < texts.length) :
    (translateBatch texts single (.ok raw)).length = texts.length ∧
    ∀ i, i < texts.length →
      (translateBatch texts single (.ok raw)).getD i "" =
        match regexFindTag (i + 1) raw with
        | some s => s
        | none => "[ERRO] " ++ texts.getD i "" := by
  have hnot : ¬ texts.length ≤ 2 := by omega
  unfold translateBatch
  rw [if_neg hnot]
  constructor
  · unfold scanTranslations
    rw [List.length_map, List.enum_length]
  · intro i hi
    unfold scanTranslations
    rw [List.getD_eq_getElem?_getD, List.getElem?_map, List.getElem?_enum,
      List.getElem?_eq_getElem hi]
    simp only [Option.map_some', Option.getD_some]
    rw [List.getD_eq_getElem?_getD, List.getElem?_eq_getElem hi, Option.getD_some]

theorem c2_witness :
    2 < (["hello", "world", "foo"] : List String).length ∧
    ((translateBatch ["hello", "world", "foo"] id
        (.ok "[1] olá\n[3] foo-traduzido")).length =
      (["hello", "world", "foo"] : List String).length ∧
     ∀ i, i < (["hello", "world", "foo"] : List String).length →
       (translateBatch ["hello", "world", "foo"] id
         (.ok "[1] olá\n[3] foo-traduzido")).getD i "" =
         match regexFindTag (i + 1) "[1] olá\n[3] foo-traduzido" with
         | some s => s
         | none => "[ERRO] " ++ (["hello", "world", "foo"] : List String).getD i "") ∧
    translateBatch ["hello", "world", "foo"] id
        (.ok "[1] olá\n[3] foo-traduzido") =
      ["olá", "[ERRO] world", "foo-traduzido"] :=
  ⟨by decide,
    c2_translate_batch ["hello", "world", "foo"] id "[1] olá\n[3] foo-traduzido"
      (by decide),
    by decide⟩

/-! ### C6 — inpainting mask -/

theorem createMask_eval (w h pad : ℕ) :
    ∀ (bs : List MBox) (mask : ℕ → ℕ → ℕ) (px py : ℕ),
      (bs.foldl (fun m b =>
        fillRect w h (b.x - pad) (b.y - pad) (min w (b.x + b.w + pad))
          (min h (b.y + b.h + pad)) m) mask) px py =
      if ∃ b ∈ bs, FillHit w h (b.x - pad) (b.y - pad)
          (min w (b.x + b.w + pad)) (min h (b.y + b.h + pad)) px py
      then 255 else mask px py := by
  intro bs
  induction bs with
  | nil => intro mask px py; simp
  | cons b rest ih =>
    intro mask px py
    rw [List.foldl_cons, ih]
    by_cases hrest : ∃ x ∈ rest, FillHit w h (x.x - pad) (x.y - pad)
        (min w (x.x + x.w + pad)) (min h (x.y + x.h + pad)) px py
    · obtain ⟨x, hxm, hxh⟩ := hrest
      rw [if_pos ⟨x, hxm, hxh⟩, if_pos ⟨x, List.mem_cons_of_mem b hxm, hxh⟩]
    · rw [if_neg hrest]
      show (if FillHit w h (b.x - pad) (b.y - pad) (min w (b.x + b.w + pad))
          (min h (b.y + b.h + pad)) px py then 255 else mask px py) = _
      by_cases hb : FillHit w h (b.x - pad) (b.y - pad)
          (min w (b.x + b.w + pad)) (min h (b.y + b.h + pad)) px py
      · rw [if_pos hb, if_pos ⟨b, List.mem_cons_self b rest, hb⟩]
      · rw [if_neg hb, if_neg ?_]
        rintro ⟨x, hxm, hxh⟩
        rcases List.mem_cons.mp hxm with heq | hxm'
        · exact hb (heq ▸ hxh)
        · exact hrest ⟨x, hxm', hxh⟩

theorem fillHit_padded_iff (w h pad : ℕ) (b : MBox) (px py : ℕ)
    (hx : px < w) (hy : py < h) :
    FillHit w h (b.x - pad) (b.y - pad) (min w (b.x + b.w + pad))
      (min h (b.y + b.h + pad)) px py ↔
    b.x - pad ≤ px ∧ px ≤ min w (b.x + b.w + pad) ∧
      b.y - pad ≤ py ∧ py ≤ min h (b.y + b.h + pad) := by
  unfold FillHit
  omega

/-- C6, amended.  The mask is binary (`255`/`0`), and a pixel of the image
is `255` iff it lies in some box's padded rectangle *with corner-inclusive
far edges*: `max(0, x - pad) ≤ px ≤ min(w, x + w_box + pad)` (and likewise
for `y`).  `cv2.rectangle` fills both corner points, so the erase region
extends one pixel beyond the half-open `[x - pad, x + w_box + pad)` range
that "expanded by the fixed padding of 5 pixels on each side" describes —
see the counterexample for that off-by-one. -/
theorem c6_mask_amended (h w pad : ℕ) (bboxes : List MBox) (px py : ℕ)
    (hx : px < w) (hy : py < h) :
    (createMask h w pad bboxes px py = 255 ∨
      createMask h w pad bboxes px py = 0) ∧
    (createMask h w pad bboxes px py = 255 ↔
      ∃ b ∈ bboxes, b.x - pad ≤ px ∧ px ≤ min w (b.x + b.w + pad) ∧
        b.y - pad ≤ py ∧ py ≤ min h (b.y + b.h + pad)) := by
  unfold createMask
  rw [createMask_eval w h pad bboxes (fun _ _ => 0) px py]
  by_cases hcond : ∃ b ∈ bboxes, FillHit w h (b.x - pad) (b.y - pad)
      (min w (b.x + b.w + pad)) (min h (b.y + b.h + pad)) px py
  · rw [if_pos hcond]
    refine ⟨Or.inl rfl, ?_, fun _ => rfl⟩
    intro _
    obtain ⟨b, hb, hc⟩ := hcond
    exact ⟨b, hb, (fillHit_padded_iff w h pad b px py hx hy).mp hc⟩
  · rw [if_neg hcond]
    refine ⟨Or.inr rfl, ?_, ?_⟩
    · intro h0
      exact absurd h0 (by decide)
    · rintro ⟨b, hb, hc⟩
      exact absurd
        ⟨b, hb, (fillHit_padded_iff w h pad b px py hx hy).mpr hc⟩ hcond

theorem c6_witness :
    25 < 100 ∧ 10 < 100 ∧
    ((createMask 100 100 5 [⟨0, 0, 20, 20⟩] 25 10 = 255 ∨
       createMask 100 100 5 [⟨0, 0, 20, 20⟩] 25 10 = 0) ∧
     (createMask 100 100 5 [⟨0, 0, 20, 20⟩] 25 10 = 255 ↔
       ∃ b ∈ [(⟨0, 0, 20, 20⟩ : MBox)], b.x - 5 ≤ 25 ∧
         25 ≤ min 100 (b.x + b.w + 5) ∧ b.y - 5 ≤ 10 ∧
         10 ≤ min 100 (b.y + b.h + 5))) :=
  ⟨by decide, by decide,
    c6_mask_amended 100 100 5 [⟨0, 0, 20, 20⟩] 25 10 (by decide) (by decide)⟩

/-- C6, counterexample.  For a `100 × 100` image and the single box
`{x: 0, y: 0, w: 20, h: 20}` with padding `5`, the code marks pixel
`(25, 10)` as erase, but that pixel is *not* inside the box expanded by 5
pixels on each side (pixel columns `[0 - 5, 0 + 20 + 5) = [0, 25)` after
clamping): `cv2.rectangle`'s corner-inclusive fill pads the right and
bottom edges by one extra pixel, so the claimed "if and only if" fails. -/
theorem c6_counterexample :
    createMask 100 100 5 [⟨0, 0, 20, 20⟩] 25 10 = 255 ∧
    ¬ SpecPaddedErase 100 100 5 [⟨0, 0, 20, 20⟩] 25 10 := by
  refine ⟨by decide, by decide⟩

/-! ### C9 / C5 — word wrap and auto font size -/

theorem wrapAttempts_some_ne_nil (tw : String → ℕ → List String)
    (m : String → ℚ) (text : String) (mw : ℤ) :
    ∀ (n : ℕ) (lines : List String),
      wrapAttempts tw m text mw n = some lines → lines ≠ [] := by
  intro n
  induction n with
  | zero => intro lines hsome; exact absurd hsome (by simp [wrapAttempts])
  | succ k ih =>
    intro lines hsome
    simp only [wrapAttempts] at hsome
    by_cases h1 : tw text (k + 1) = []
    · rw [if_pos h1] at hsome
      exact absurd hsome (by simp)
    · rw [if_neg h1] at hsome
      by_cases h2 : widestLine m (tw text (k + 1)) ≤ (mw : ℚ)
      · rw [if_pos h2] at hsome
        cases hsome
        exact h1
      · rw [if_neg h2] at hsome
        exact ih lines hsome

theorem wrapText_ne_nil (tw : String → ℕ → List String) (m : String → ℚ)
    (text : String) (mw : ℤ) (htext : text ≠ "") :
    wrapText tw m text mw ≠ [] := by
  unfold wrapText
  rw [if_neg htext]
  cases hma : wrapAttempts tw m text mw (charsPerLine m mw) with
  | some lines =>
    exact wrapAttempts_some_ne_nil tw m text mw _ lines hma
  | none =>
    by_cases h1 : tw text 1 = []
    · rw [if_pos h1]
      simp
    · rw [if_neg h1]
      exact h1

/-- C9.  `_wrap_text` is a total function (it is defined by structural
recursion on the attempt budget, so it terminates on every input), and for
every non-empty text and *every* maximum width — including widths no wrap
can satisfy — it returns at least one line, thanks to the
`textwrap.wrap(text, width=1) or [text]` fallback. -/
theorem c9_wrap_text_nonempty (tw : String → ℕ → List String) (m : String → ℚ)
    (text : String) (maxWidth : ℤ) (htext : text ≠ "") :
    wrapText tw m text maxWidth ≠ [] :=
  wrapText_ne_nil tw m text maxWidth htext

theorem c9_witness :
    ("a" : String) ≠ "" ∧ wrapText demoWrap demoMeasure1 "a" (-5) ≠ [] :=
  ⟨by decide, c9_wrap_text_nonempty demoWrap demoMeasure1 "a" (-5) (by decide)⟩

theorem autoLoop_hit (tw : String → ℕ → List String) (m : ℕ → String → ℚ)
    (text : String) (boxW boxH : ℤ) (htext : text ≠ "") :
    ∀ (k : ℕ) (best : ℕ × List String) (s : ℕ), 10 ≤ s → s < 10 + k →
      FitsAt tw m text boxW boxH s →
      (∀ t, s < t → t < 10 + k → ¬ FitsAt tw m text boxW boxH t) →
      autoLoop tw m text boxW boxH k best =
        (s, wrapText tw (m s) text (boxW - 8)) := by
  intro k
  induction k with
  | zero => intro best s h10 hlt _ _; omega
  | succ k ih =>
    intro best s h10 hlt hfit hnofit
    have hne := wrapText_ne_nil tw (m (10 + k)) text (boxW - 8) htext
    simp only [autoLoop]
    rw [if_neg hne]
    by_cases hs : s = 10 + k
    · subst hs
      unfold FitsAt at hfit
      rw [if_pos hfit]
    · have hnf : ¬ FitsAt tw m text boxW boxH (10 + k) :=
        hnofit (10 + k) (by omega) (by omega)
      unfold FitsAt at hnf
      rw [if_neg hnf]
      exact ih _ s h10 (by omega) hfit fun t ht1 ht2 => hnofit t ht1 (by omega)

theorem autoLoop_nofit (tw : String → ℕ → List String) (m : ℕ → String → ℚ)
    (text : String) (boxW boxH : ℤ) (htext : text ≠ "") :
    ∀ (k : ℕ) (best : ℕ × List String), 1 ≤ k →
      (∀ t, 10 ≤ t → t < 10 + k → ¬ FitsAt tw m text boxW boxH t) →
      autoLoop tw m text boxW boxH k best =
        (10, wrapText tw (m 10) text (boxW - 8)) := by
  intro k
  induction k with
  | zero => intro best h1 _; exact absurd h1 (by omega)
  | succ k ih =>
    intro best _ hnofit
    have hne := wrapText_ne_nil tw (m (10 + k)) text (boxW - 8) htext
    simp only [autoLoop]
    rw [if_neg hne]
    have hnf : ¬ FitsAt tw m text boxW boxH (10 + k) :=
      hnofit (10 + k) (by omega) (by omega)
    unfold FitsAt at hnf
    rw [if_neg hnf]
    rcases Nat.eq_zero_or_pos k with rfl | hk
    · simp only [autoLoop]
    · exact ih _ hk fun t ht1 ht2 => hnofit t ht1 (by omega)

/-- C5.  For every non-empty text, `_auto_font_size` descends the font size
from the maximum bound 48 to the minimum bound 10, re-wrapping at each
size, and returns the first (largest) size whose wrapped height
`len(lines) * (size + 4)` is at most the inner height `box_height - 8`,
together with that size's wrap; if no size in the range fits, it returns
the minimum size 10 together with the minimum size's wrap. -/
theorem c5_auto_font_size (tw : String → ℕ → List String) (m : ℕ → String → ℚ)
    (text : String) (boxW boxH : ℤ) (htext : text ≠ "") :
    (∀ s : ℕ, 10 ≤ s → s ≤ 48 → FitsAt tw m text boxW boxH s →
      (∀ t, s < t → t ≤ 48 → ¬ FitsAt tw m text boxW boxH t) →
      autoFontSize tw m text boxW boxH =
        (s, wrapText tw (m s) text (boxW - 8))) ∧
    ((∀ s, 10 ≤ s → s ≤ 48 → ¬ FitsAt tw m text boxW boxH s) →
      autoFontSize tw m text boxW boxH =
        (10, wrapText tw (m 10) text (boxW - 8))) := by
  constructor
  · intro s h10 h48 hfit hnofit
    unfold autoFontSize
    exact autoLoop_hit tw m text boxW boxH htext 39 (10, [text]) s h10
      (by omega) hfit fun t ht1 ht2 => hnofit t ht1 (by omega)
  · intro hnofit
    unfold autoFontSize
    exact autoLoop_nofit tw m text boxW boxH htext 39 (10, [text]) (by omega)
      fun t ht1 ht2 => hnofit t ht1 (by omega)

theorem charsPerLine_pos (m : String → ℚ) (mw : ℤ) : 0 < charsPerLine m mw := by
  unfold charsPerLine
  have h := le_max_left (1 : ℤ) (pyTrunc ((mw : ℚ) / max 1 (m "あいうえ" / 4)))
  omega

theorem wrapText_demoWrap (m : String → ℚ) (t : String) (mw : ℤ)
    (ht : t ≠ "") (hm : m t ≤ (mw : ℚ)) : wrapText demoWrap m t mw = [t] := by
  unfold wrapText
  rw [if_neg ht]
  obtain ⟨c, hc⟩ : ∃ c, charsPerLine m mw = c + 1 :=
    ⟨charsPerLine m mw - 1, by have := charsPerLine_pos m mw; omega⟩
  rw [hc]
  simp only [wrapAttempts, demoWrap]
  rw [if_neg (by simp), if_pos (show widestLine m [t] ≤ (mw : ℚ) from hm)]

theorem c5_witness :
    ("ab" : String) ≠ "" ∧
    autoFontSize demoWrap demoMeasure "ab" 100 100 = (48, ["ab"]) := by
  refine ⟨by decide, ?_⟩
  have hwrap : ∀ s : ℕ, wrapText demoWrap (demoMeasure s) "ab" (100 - 8) = ["ab"] :=
    fun s => wrapText_demoWrap (demoMeasure s) "ab" (100 - 8) (by decide)
      (by norm_num [demoMeasure])
  have hfit : FitsAt demoWrap demoMeasure "ab" 100 100 48 := by
    unfold FitsAt
    rw [hwrap 48]
    norm_num
  have h := (c5_auto_font_size demoWrap demoMeasure "ab" 100 100 (by decide)).1
    48 (by norm_num) (by norm_num) hfit fun t ht1 ht2 => absurd ht2 (by omega)
  rw [h, hwrap 48]

/-! ### C10 — skipped blocks draw nothing -/

theorem paintLines_untouched (ctx : RenderCtx) (b : RBlock) (size : ℕ)
    (yStart : ℤ) (p : ℤ × ℤ) :
    ∀ (ls : List (ℕ × String)) (img : Img),
      (∀ i line, (i, line) ∈ ls →
        ctx.paint (lineXPos ctx b size line) (yStart + i * (size + 4))
          line size b.text_color p = none) →
      paintLines ctx b size yStart ls img p = img p := by
  intro ls
  induction ls with
  | nil => intro img _; rfl
  | cons il rest ih =>
    obtain ⟨i, line⟩ := il
    intro img hnone
    show paintLines ctx b size yStart rest
      (paintLine ctx b size yStart i line img) p = img p
    rw [ih _ fun j jline hj => hnone j jline (List.mem_cons_of_mem _ hj)]
    show (match ctx.paint (lineXPos ctx b size line) (yStart + i * (size + 4))
        line size b.text_color p with
      | some c => c
      | none => img p) = img p
    rw [hnone i line (List.mem_cons_self _ _)]

theorem renderBlock_untouched (ctx : RenderCtx) (b : RBlock) (p : ℤ × ℤ)
    (img : Img) (h : ¬ BlockTouches ctx b p) :
    renderBlock ctx b img p = img p := by
  simp only [BlockTouches] at h
  rw [not_or] at h
  obtain ⟨hrect, hlines⟩ := h
  unfold renderBlock
  rw [paintLines_untouched ctx b (blockLayout ctx b).1 _ p _ _ ?hnone]
  case hnone =>
    intro i line hmem
    exact Option.not_isSome_iff_eq_none.mp fun hs => hlines ⟨(i, line), hmem, hs⟩
  show (if b.box_x + 2 ≤ p.1 ∧ p.1 ≤ b.box_x + b.box_width - 2 ∧
      b.box_y + 2 ≤ p.2 ∧ p.2 ≤ b.box_y + b.box_height - 2
    then "#FFFFFF" else img p) = img p
  rw [if_neg hrect]

theorem renderSync_untouched (ctx : RenderCtx) (p : ℤ × ℤ) :
    ∀ (blocks : List RBlock) (img : Img),
      (∀ b' ∈ blocks, ¬ SkipBlock b' → ¬ BlockTouches ctx b' p) →
      renderSync ctx blocks img p = img p := by
  intro blocks
  induction blocks with
  | nil => intro img _; rfl
  | cons b bs ih =>
    intro img h
    show renderSync ctx bs
      (if SkipBlock b then img else renderBlock ctx b img) p = img p
    rw [ih _ fun b' hb' => h b' (List.mem_cons_of_mem _ hb')]
    by_cases hsb : SkipBlock b
    · rw [if_pos hsb]
    · rw [if_neg hsb]
      exact renderBlock_untouched ctx b p img (h b (List.mem_cons_self _ _) hsb)

/-- C10.  `_render_sync` skips every block whose `text_translated` is
missing, empty, or whitespace-only — no background rectangle and no text
is drawn for it — so any pixel (in particular any pixel of the skipped
block's box) that no *rendered* block touches keeps its input colour. -/
theorem c10_skipped_block_pixels (ctx : RenderCtx) (blocks : List RBlock)
    (img : Img) (p : ℤ × ℤ) (b : RBlock) (_hmem : b ∈ blocks)
    (_hskip : SkipBlock b) (_hin : InBlockBox b p)
    (hrest : ∀ b' ∈ blocks, ¬ SkipBlock b' → ¬ BlockTouches ctx b' p) :
    renderSync ctx blocks img p = img p :=
  renderSync_untouched ctx p blocks img hrest

theorem c10_witness :
    demoSkippedBlock ∈ [demoSkippedBlock] ∧ SkipBlock demoSkippedBlock ∧
    InBlockBox demoSkippedBlock (5, 5) ∧
    (∀ b' ∈ [demoSkippedBlock], ¬ SkipBlock b' →
      ¬ BlockTouches demoCtx b' (5, 5)) ∧
    renderSync demoCtx [demoSkippedBlock] (fun _ => "src") (5, 5) =
      (fun _ : ℤ × ℤ => "src") (5, 5) := by
  have hforall : ∀ b' ∈ [demoSkippedBlock], ¬ SkipBlock b' →
      ¬ BlockTouches demoCtx b' (5, 5) := by
    intro b' hb' hns
    rw [List.mem_singleton] at hb'
    subst hb'
    exact absurd (show SkipBlock demoSkippedBlock by decide) hns
  exact ⟨List.mem_singleton_self _, by decide, by decide, hforall,
    c10_skipped_block_pixels demoCtx [demoSkippedBlock] (fun _ => "src") (5, 5)
      demoSkippedBlock (List.mem_singleton_self _) (by decide) (by decide)
      hforall⟩

/-! ### C8 — export failure isolation -/

/-- C8.  During export a page whose rendering raises is skipped without
aborting the remaining pages, and `export_project` signals an error to the
caller if and only if zero pages were successfully rendered; in
particular, a 3-page project whose second page throws still yields a
2-file archive (pages 1 and 3, in order) and no error. -/
theorem c8_export_failure_isolation :
    (∀ (pages : List EPage) (render : EPage → Except Unit Unit),
      (exportProject pages render).isOk = false ↔
        ∀ p ∈ pages, render p = .error ()) ∧
    exportProject [⟨1, "a.png"⟩, ⟨2, "b.png"⟩, ⟨3, "c.png"⟩]
        (fun p => if p.page_number = 2 then .error () else .ok ()) =
      .ok ["0001_a.png", "0003_c.png"] := by
  refine ⟨?_, rfl⟩
  intro pages render
  by_cases hp : pages = []
  · subst hp
    simp [exportProject, Except.isOk, Except.toBool]
  · unfold exportProject
    rw [if_neg hp]
    by_cases hFe : List.insertionSort pyNameLe
        ((List.insertionSort byPageNumberLe pages).filterMap fun p =>
          match render p with
          | .ok _ => some (exportName p)
          | .error _ => none) = []
    · rw [if_pos hFe]
      have hFnil : (List.insertionSort byPageNumberLe pages).filterMap
          (fun p => match render p with
            | .ok _ => some (exportName p)
            | .error _ => none) = [] := by
        have hperm := List.perm_insertionSort pyNameLe
          ((List.insertionSort byPageNumberLe pages).filterMap fun p =>
            match render p with
            | .ok _ => some (exportName p)
            | .error _ => none)
        rw [hFe] at hperm
        exact hperm.nil_eq.symm
      constructor
      · intro _ p hp'
        have hmem : p ∈ List.insertionSort byPageNumberLe pages :=
          (List.mem_insertionSort byPageNumberLe).mpr hp'
        have hnone := List.filterMap_eq_nil_iff.mp hFnil p hmem
        cases hr : render p with
        | ok u => rw [hr] at hnone; exact absurd hnone (by simp)
        | error e => cases e; rfl
      · intro _; rfl
    · rw [if_neg hFe]
      simp only [Except.isOk]
      constructor
      · intro hcontra; simp [Except.toBool] at hcontra
      · intro hall
        exfalso
        apply hFe
        have hFnil : (List.insertionSort byPageNumberLe pages).filterMap
            (fun p => match render p with
              | .ok _ => some (exportName p)
              | .error _ => none) = [] := by
          rw [List.filterMap_eq_nil_iff]
          intro a ha
          rw [hall a ((List.mem_insertionSort byPageNumberLe).mp ha)]
        rw [hFnil]
        rfl
